import Mathlib

/-!
Verification development for the schema-registry integrity and lifecycle
engine (`src/tools/schema_analyzer.py`, `src/tools/schema_checker.py`,
`src/tools/schema_purger.py`).

The Python code manipulates decoded JSON values (the results of
`json.loads` and `response.json()`).  We embed JSON values as the
inductive type `JVal` below; Python `dict`s become association lists with
string keys (JSON objects always have string keys), `dict.get` becomes an
association-list lookup, and key assignment becomes `dictSet` (update in
place when the key exists, append otherwise, matching Python insertion
order semantics).  HTTP calls are modelled by an environment that maps
each request to either a raised transport exception or a response carrying
an HTTP status, the raw text and the already-decoded JSON body (decoding
failures of a body are folded into the exception case).
-/

set_option linter.unusedVariables false
set_option linter.unreachableTactic false
set_option linter.unusedTactic false

namespace DemoAsync

/-- A decoded JSON value (the result of Python `json.loads`).  Numbers are
modelled as rationals; no arithmetic is ever performed on them, they are
only carried around verbatim. -/
inductive JVal where
  | null : JVal
  | bool (b : Bool) : JVal
  | num (q : ℚ) : JVal
  | str (s : String) : JVal
  | arr (xs : List JVal) : JVal
  | obj (kvs : List (String × JVal)) : JVal

/-- Python dict lookup returning the value when the key is present
(`d[k]` / successful `d.get(k)`).  JSON objects have unique keys, so the
first match is the match. -/
def jGet (kvs : List (String × JVal)) (k : String) : Option JVal :=
  (kvs.find? (fun p => p.1 == k)).map (fun p => p.2)

/-- Python `k in d` key-membership test on a dict. -/
def jHas (kvs : List (String × JVal)) (k : String) : Bool :=
  kvs.any (fun p => p.1 == k)

/-- Python dict assignment `d[k] = v`: overwrite in place when the key is
already present (keeping its position), append otherwise. -/
def dictSet (kvs : List (String × JVal)) (k : String) (v : JVal) :
    List (String × JVal) :=
  if kvs.any (fun p => p.1 == k) then
    kvs.map (fun p => if p.1 == k then (k, v) else p)
  else
    kvs ++ [(k, v)]

/-- Python comparison `t == "null"` on a decoded JSON value: true exactly
for the JSON string `"null"`. -/
def isNullLit : JVal → Bool
  | .str s => s == "null"
  | _ => false

/-- `SchemaAnalyzer._convert_avro_type`, logical-type tail of the dict
branch: `if "logicalType" in avro_type: ...` followed by the final
`return {"type": "string"}` fallback. -/
def convert_logical (kvs : List (String × JVal)) : JVal :=
  match jGet kvs "logicalType" with
  | some (.str "timestamp-millis") =>
      .obj [("type", .str "string"), ("format", .str "date-time")]
  | some (.str "timestamp-micros") =>
      .obj [("type", .str "string"), ("format", .str "date-time")]
  | some (.str "date") =>
      .obj [("type", .str "string"), ("format", .str "date")]
  | _ => .obj [("type", .str "string")]

/-- The value found by a dict lookup is structurally smaller than the
enclosing object (used for termination of the recursive translator). -/
lemma jGet_getD_sizeOf_lt (kvs : List (String × JVal)) (k : String) :
    sizeOf ((jGet kvs k).getD JVal.null) < 1 + sizeOf kvs := by
  cases hfind : jGet kvs k with
  | none =>
      simp only [Option.getD_none, JVal.null.sizeOf_spec]
      have h1 : 1 ≤ sizeOf kvs := by cases kvs <;> simp_arith
      omega
  | some w =>
      simp only [Option.getD_some]
      unfold jGet at hfind
      cases hf : kvs.find? (fun p => p.1 == k) with
      | none => rw [hf] at hfind; simp at hfind
      | some p =>
          rw [hf] at hfind
          simp only [Option.map_some'] at hfind
          have hp : p ∈ kvs := List.mem_of_find?_eq_some hf
          have h1 : sizeOf p < sizeOf kvs := List.sizeOf_lt_of_mem hp
          have h2 : sizeOf p.2 < sizeOf p := by
            obtain ⟨a, b⟩ := p; simp
          have hw : p.2 = w := Option.some.inj hfind
          rw [← hw]
          omega

/-- `SchemaAnalyzer._convert_avro_type`: converts one parsed Avro type
node into a JSON-Schema node.  The `.str` branch is the primitive lookup
table (with default `{"type": "string"}`), the `.arr` branch is the union
rule (drop `"null"` members, translate the first remaining member, a
union of only nulls becomes a null node), the `.obj` branch handles
enum/array/record and logical types, and everything else falls through to
the final `return {"type": "string"}`. -/
def convert_avro_type : JVal → JVal
  | .str s =>
      if s = "string" then .obj [("type", .str "string")]
      else if s = "int" then .obj [("type", .str "integer")]
      else if s = "long" then .obj [("type", .str "integer"), ("format", .str "int64")]
      else if s = "float" then .obj [("type", .str "number"), ("format", .str "float")]
      else if s = "double" then .obj [("type", .str "number"), ("format", .str "double")]
      else if s = "boolean" then .obj [("type", .str "boolean")]
      else if s = "bytes" then .obj [("type", .str "string"), ("contentEncoding", .str "base64")]
      else if s = "null" then .obj [("type", .str "null")]
      else .obj [("type", .str "string")]
  | .arr ts =>
      match h : ts.filter (fun t => !isNullLit t) with
      | t :: _ => convert_avro_type t
      | [] => .obj [("type", .str "null")]
  | .obj kvs =>
      match jGet kvs "type" with
      | some (.str "enum") =>
          .obj [("type", .str "string"), ("enum", (jGet kvs "symbols").getD (.arr []))]
      | some (.str "array") =>
          .obj [("type", .str "array"),
                ("items", convert_avro_type ((jGet kvs "items").getD .null))]
      | some (.str "record") => .obj [("type", .str "object")]
      | _ => convert_logical kvs
  | _ => .obj [("type", .str "string")]
termination_by t => sizeOf t
decreasing_by
  · have ht : t ∈ ts.filter (fun t => !isNullLit t) := by
      rw [h]; exact List.mem_cons_self _ _
    have ht2 : t ∈ ts := List.mem_of_mem_filter ht
    have := List.sizeOf_lt_of_mem ht2
    simp only [JVal.arr.sizeOf_spec]
    omega
  · have := jGet_getD_sizeOf_lt kvs "items"
    simp only [JVal.obj.sizeOf_spec]
    omega

/-- `SchemaAnalyzer._generate_example_value`, logical-type tail of the
dict branch followed by the final `return "example"` fallback. -/
def gen_logical (kvs : List (String × JVal)) : JVal :=
  match jGet kvs "logicalType" with
  | some (.str "timestamp-millis") => .str "2024-01-01T12:00:00Z"
  | some (.str "timestamp-micros") => .str "2024-01-01T12:00:00Z"
  | some (.str "date") => .str "2024-01-01"
  | _ => .str "example"

/-- Python truthiness of a decoded JSON value (`if symbols:`). -/
def pyTruthy : JVal → Bool
  | .null => false
  | .bool b => b
  | .num q => !decide (q = 0)
  | .str s => !s.isEmpty
  | .arr xs => !xs.isEmpty
  | .obj kvs => !kvs.isEmpty

/-- A Python exception message (the argument of a raised exception). -/
abbrev PyErr := String

/-- `SchemaAnalyzer._generate_example_value`: generates a fixed example
value for one parsed Avro type node.  The union (`.arr`) branch mirrors
the translator: drop `"null"` members and recurse on the first remaining
member; a union of only nulls yields `None`.  The enum branch computes
`symbols[0] if symbols else "ENUM_VALUE"`: on a truthy `symbols` the
subscript returns the first list element or the first character of a
string, and raises on anything else (`TypeError` on numbers and booleans,
`KeyError` on a dict, whose JSON-decoded keys are strings and never the
int 0); the raise propagates to the caller, hence the `Except` result. -/
def generate_example_value : JVal → Except PyErr JVal
  | .str s =>
      if s = "string" then .ok (.str "example-string")
      else if s = "int" then .ok (.num 42)
      else if s = "long" then .ok (.num 1234567890)
      else if s = "float" then .ok (.num (314 / 100))
      else if s = "double" then .ok (.num (314159 / 100000))
      else if s = "boolean" then .ok (.bool true)
      else if s = "bytes" then .ok (.str "base64-encoded-data")
      else if s = "null" then .ok .null
      else .ok (.str "example")
  | .arr ts =>
      match h : ts.filter (fun t => !isNullLit t) with
      | t :: _ => generate_example_value t
      | [] => .ok .null
  | .obj kvs =>
      match jGet kvs "type" with
      | some (.str "enum") =>
          -- symbols = avro_type.get("symbols", []); symbols[0] if symbols else "ENUM_VALUE"
          let symbols := (jGet kvs "symbols").getD (.arr [])
          if pyTruthy symbols then
            match symbols with
            | .arr (x :: _) => .ok x
            | .arr [] => .error "IndexError: list index out of range"
            | .str s =>
                match s.toList with
                | c :: _ => .ok (.str (String.singleton c))
                | [] => .error "IndexError: string index out of range"
            | .obj _ => .error "KeyError: 0"
            | _ => .error "TypeError: not subscriptable"
          else .ok (.str "ENUM_VALUE")
      | some (.str "array") => .ok (.arr [])
      | some (.str "record") => .ok (.obj [])
      | _ => .ok (gen_logical kvs)
  | _ => .ok (.str "example")
termination_by t => sizeOf t
decreasing_by
  have ht : t ∈ ts.filter (fun t => !isNullLit t) := by
    rw [h]; exact List.mem_cons_self _ _
  have ht2 : t ∈ ts := List.mem_of_mem_filter ht
  have := List.sizeOf_lt_of_mem ht2
  simp only [JVal.arr.sizeOf_spec]
  omega

/-- Python `d.get(k, default)` on a decoded JSON value: succeeds on a
dict, raises `AttributeError` on anything else (only dicts have `.get`). -/
def jGetD (v : JVal) (k : String) (d : JVal) : Except PyErr JVal :=
  match v with
  | .obj kvs => .ok ((jGet kvs k).getD d)
  | _ => .error "AttributeError"

/-- Python `v[k]` with a string key: key lookup on a dict (`KeyError` when
absent), `TypeError` on any non-dict value. -/
def pyIndex (v : JVal) (k : String) : Except PyErr JVal :=
  match v with
  | .obj kvs =>
      match jGet kvs k with
      | some x => .ok x
      | none => .error "KeyError"
  | _ => .error "TypeError"

/-- Python `for x in v`: a list iterates its elements, a string iterates
its one-character substrings, a dict iterates its keys; other values raise
`TypeError`. -/
def pyIter : JVal → Except PyErr (List JVal)
  | .arr xs => .ok xs
  | .str s => .ok (s.toList.map (fun c => .str (String.singleton c)))
  | .obj kvs => .ok (kvs.map (fun p => .str p.1))
  | _ => .error "TypeError: not iterable"

/-- The field loop of `SchemaAnalyzer.avro_to_asyncapi_schema`, threading
the `properties` dict and the `required` list through the iteration.  For
each field: `field_name = field["name"]`, `field_type = field["type"]`,
the property node is `{"type": json_type["type"], "description":
field.get("doc", "")}` possibly extended with `enum` (when the field type
is a dict of type `enum`) and `default` (when the field carries one); a
field without a default is appended to `required`.  Python lets a
non-string hashable stand as a dict key; since JSON field names are
strings we model a non-string `"name"` as an error. -/
def processFields : List JVal → List (String × JVal) → List String →
    Except PyErr (List (String × JVal) × List String)
  | [], props, required => .ok (props, required)
  | field :: rest, props, required =>
      match field with
      | .obj fkvs =>
          match jGet fkvs "name" with
          | some (.str field_name) =>
              match jGet fkvs "type" with
              | some field_type =>
                  match pyIndex (convert_avro_type field_type) "type" with
                  | .ok tval =>
                      let fdoc := (jGet fkvs "doc").getD (.str "")
                      let base := [("type", tval), ("description", fdoc)]
                      let withEnum :=
                        match field_type with
                        | .obj tkvs =>
                            match jGet tkvs "type" with
                            | some (.str "enum") =>
                                base ++ [("enum", (jGet tkvs "symbols").getD (.arr []))]
                            | _ => base
                        | _ => base
                      if jHas fkvs "default" then
                        match jGet fkvs "default" with
                        | some d =>
                            processFields rest
                              (dictSet props field_name (.obj (withEnum ++ [("default", d)])))
                              required
                        | none => .error "KeyError"
                      else
                        processFields rest
                          (dictSet props field_name (.obj withEnum))
                          (required ++ [field_name])
                  | .error e => .error e
              | none => .error "KeyError"
          | some _ => .error "TypeError: non-string field name"
          | none => .error "KeyError"
      | _ => .error "TypeError"

/-- Body of `SchemaAnalyzer.avro_to_asyncapi_schema` (the code inside the
`try`): parse result `avro`, read `doc` and `fields` with defaults, run
the field loop, and assemble `{"type": "object", "description": doc,
"properties": ..., "required": [...]}`. -/
def avroToAsyncapiBody (avro : JVal) : Except PyErr JVal := do
  let doc ← jGetD avro "doc" (.str "")
  let fieldsVal ← jGetD avro "fields" (.arr [])
  let fields ← pyIter fieldsVal
  let pr ← processFields fields [] []
  .ok (.obj [("type", .str "object"), ("description", doc),
             ("properties", .obj pr.1),
             ("required", .arr (pr.2.map (fun n => .str n)))])

/-- `SchemaAnalyzer.avro_to_asyncapi_schema`.  The input is the outcome of
`json.loads` on the schema text (`.error` when the text is not valid
JSON); any exception inside the body is caught and replaced by the generic
`{"type": "object", "description": "Schema conversion error"}` node. -/
def avro_to_asyncapi_schema (parsed : Except PyErr JVal) : JVal :=
  match parsed >>= avroToAsyncapiBody with
  | .ok v => v
  | .error _ => .obj [("type", .str "object"),
                      ("description", .str "Schema conversion error")]

/-- The field loop of `SchemaAnalyzer.extract_message_examples`: for each
field, `example[field_name]` is the declared default when the field has
one (`"default" in field`), and `_generate_example_value(field["type"])`
otherwise. -/
def extractLoop : List JVal → List (String × JVal) →
    Except PyErr (List (String × JVal))
  | [], ex0 => .ok ex0
  | field :: rest, ex0 =>
      match field with
      | .obj fkvs =>
          match jGet fkvs "name" with
          | some (.str field_name) =>
              match jGet fkvs "type" with
              | some field_type =>
                  if jHas fkvs "default" then
                    match jGet fkvs "default" with
                    | some d => extractLoop rest (dictSet ex0 field_name d)
                    | none => .error "KeyError"
                  else
                    match generate_example_value field_type with
                    | .ok v => extractLoop rest (dictSet ex0 field_name v)
                    | .error e => .error e
              | none => .error "KeyError"
          | some _ => .error "TypeError: non-string field name"
          | none => .error "KeyError"
      | _ => .error "TypeError"

/-- Body of `SchemaAnalyzer.extract_message_examples` (inside the `try`). -/
def extractExamplesBody (avro : JVal) : Except PyErr JVal := do
  let fieldsVal ← jGetD avro "fields" (.arr [])
  let fields ← pyIter fieldsVal
  let ex ← extractLoop fields []
  .ok (.obj ex)

/-- `SchemaAnalyzer.extract_message_examples`: on any exception (a parse
failure of the schema text included) it returns the empty mapping `{}`. -/
def extract_message_examples (parsed : Except PyErr JVal) : JVal :=
  match parsed >>= extractExamplesBody with
  | .ok v => v
  | .error _ => .obj []

/-! ## Health checker (`src/tools/schema_checker.py`) -/

/-- Outcome of one HTTP call made through `requests`: either a raised
exception (timeout, connection error, body-decoding failure) or a response
carrying the HTTP status code, the raw text and the decoded JSON body. -/
inductive Http (β : Type) where
  | exc (msg : String) : Http β
  | resp (status : Nat) (text : String) (body : β) : Http β

/-- The inline per-check dict stored in `results["checks"][name]`
(`status` and `message`; `count` where the check reports one). -/
structure CheckResult where
  status : String
  message : String
  count : Option Nat := none

/-- One check of `SchemaHealthChecker.check_all`, abstracted by what it
leaves behind: its inline result dict plus the entries it appended to
`self.issues` and `self.warnings` while running. -/
structure CheckOutcome where
  result : CheckResult
  issues : List String
  warnings : List String

/-- The `results["summary"]` dict built at the end of
`SchemaHealthChecker.check_all` from the accumulated `self.issues` and
`self.warnings` lists: `"CRITICAL" if self.issues else ("WARNING" if
self.warnings else "OK")`. -/
structure Summary where
  total_issues : Nat
  total_warnings : Nat
  issues : List String
  warnings : List String
  status : String

def summarize (issues warnings : List String) : Summary :=
  { total_issues := issues.length
    total_warnings := warnings.length
    issues := issues
    warnings := warnings
    status := if !issues.isEmpty then "CRITICAL"
              else if !warnings.isEmpty then "WARNING" else "OK" }

/-- `SchemaHealthChecker.check_all`, abstracted over the outcomes of the
seven checks it runs in sequence: each check appends its issue and warning
entries to the shared accumulators and the summary is computed from the
final lists. -/
def check_all (checks : List CheckOutcome) : Summary :=
  summarize
    (checks.foldl (fun acc c => acc ++ c.issues) [])
    (checks.foldl (fun acc c => acc ++ c.warnings) [])

/-- `SchemaHealthChecker._check_subject_count` as a function of the
`GET /subjects` outcome: `raise_for_status` turns a status of 400 or more
into an exception, any exception gives the `ERROR` result (appending
nothing); otherwise `count > 1000` gives `WARNING` (appending a warning)
and only `elif count > 5000` would give `CRITICAL` (appending an issue). -/
def check_subject_count (resp : Http (List String)) : CheckOutcome :=
  match resp with
  | .exc m => { result := { status := "ERROR", message := m },
                issues := [], warnings := [] }
  | .resp code text subjects =>
      if 400 ≤ code then
        { result := { status := "ERROR",
                      message := "HTTP " ++ toString code ++ ": " ++ text },
          issues := [], warnings := [] }
      else
        let count := subjects.length
        if count > 1000 then
          { result := { status := "WARNING",
                        message := "Total subjects: " ++ toString count,
                        count := some count },
            issues := [],
            warnings := ["High subject count: " ++ toString count] }
        else if count > 5000 then
          { result := { status := "CRITICAL",
                        message := "Total subjects: " ++ toString count,
                        count := some count },
            issues := ["Very high subject count: " ++ toString count],
            warnings := [] }
        else
          { result := { status := "OK",
                        message := "Total subjects: " ++ toString count,
                        count := some count },
            issues := [], warnings := [] }

/-! ## Lifecycle manager (`src/tools/schema_purger.py`) -/

/-- The decoded body of `GET /subjects/{subject}/versions/latest` as used
by `SchemaPurger.get_subject_details` (a JSON object whose keys may be
absent; `{}` when the status is not 200). -/
structure LatestRec where
  schema : Option String := none
  version : Option Int := none
  schemaType : Option String := none
  id : Option Int := none

/-- The remote registry as seen by `SchemaPurger`: the outcome of each
HTTP request the purger can make.  `deleteSubject s permanent` is
`DELETE /subjects/{s}` (with `?permanent=true` when the flag is set);
its decoded body is the list of deleted version numbers. -/
structure PurgerEnv where
  subjectsList : Bool → Http (List String)
  deleteSubject : String → Bool → Http (List Int)
  deleteVersion : String → String → Http JVal
  getVersions : String → Http (List Int)
  getLatest : String → Http LatestRec

/-- `SchemaPurger.get_all_subjects`: `raise_for_status` plus `json()`,
with every exception re-raised as `Failed to get subjects: ...`. -/
def get_all_subjects (env : PurgerEnv) (include_deleted : Bool) :
    Except String (List String) :=
  match env.subjectsList include_deleted with
  | .exc m => .error ("Failed to get subjects: " ++ m)
  | .resp code _ body =>
      if 400 ≤ code then .error ("Failed to get subjects: HTTP " ++ toString code)
      else .ok body

/-- Round half to even at two decimal places (Python `round(x, 2)` on the
idealized real value). -/
def round2 (x : ℚ) : ℚ :=
  let y := x * 100
  let f : ℤ := ⌊y⌋
  let r := y - (f : ℚ)
  let n : ℤ :=
    if r < 1 / 2 then f
    else if r > 1 / 2 then f + 1
    else if f % 2 = 0 then f else f + 1
  (n : ℚ) / 100

/-- The dict returned by `SchemaPurger.get_subject_details`: the full
details on the happy path, or the `{"subject": ..., "error": ...}` dict
when an exception was raised. -/
inductive Details where
  | ok (subject : String) (versions : List Int) (version_count : Nat)
      (latest_version : Option Int) (schema_type : String)
      (size_kb : ℚ) (id : Option Int) : Details
  | err (subject : String) (msg : String) : Details

/-- `SchemaPurger.get_subject_details`: fetch the version list (empty
unless the status is 200) and the latest version (empty dict unless 200);
an exception from either call yields the error dict. -/
def get_subject_details (env : PurgerEnv) (subject : String) : Details :=
  match env.getVersions subject with
  | .exc m => .err subject m
  | .resp vcode _ vbody =>
      match env.getLatest subject with
      | .exc m => .err subject m
      | .resp lcode _ lbody =>
          let versions := if vcode = 200 then vbody else []
          let latest : LatestRec := if lcode = 200 then lbody else {}
          let schema_str := latest.schema.getD ""
          let size_kb : ℚ := (schema_str.length : ℚ) / 1024
          .ok subject versions versions.length latest.version
            (latest.schemaType.getD "AVRO") (round2 size_kb) latest.id

/-- `details.get("version_count", 0)` on the result of
`get_subject_details` (the error dict carries no `version_count` key). -/
def detailsVersionCount : Details → Nat
  | .ok _ _ version_count _ _ _ _ => version_count
  | .err _ _ => 0

/-- A per-subject deletion result dict (`soft_delete_subject`,
`hard_delete_subject`, `delete_subject_version`): always carries
`success` and `subject`, plus whichever of the other keys the branch
sets. -/
structure DelResult where
  success : Bool
  subject : String
  deleted_versions : List Int := []
  message : Option String := none
  error : Option String := none

/-- `SchemaPurger.soft_delete_subject`: `DELETE /subjects/{subject}`;
status 200 is a success carrying the deleted version numbers, any other
status or an exception is a failure result (never a raise). -/
def soft_delete_subject (env : PurgerEnv) (subject : String) : DelResult :=
  match env.deleteSubject subject false with
  | .exc m => { success := false, subject := subject, error := some m }
  | .resp code text versions =>
      if code = 200 then
        { success := true, subject := subject, deleted_versions := versions,
          message := some ("Soft-deleted " ++ toString versions.length ++ " versions") }
      else
        { success := false, subject := subject,
          error := some ("HTTP " ++ toString code ++ ": " ++ text) }

/-- `SchemaPurger.hard_delete_subject`: first a plain
`DELETE /subjects/{subject}` whose response is bound but never inspected,
then `DELETE /subjects/{subject}?permanent=true`; only the second
response's status decides success.  Both calls sit inside one `try`, so an
exception raised by the first call is caught and reported as a failure
(and the permanent delete is not issued). -/
def hard_delete_subject (env : PurgerEnv) (subject : String) : DelResult :=
  match env.deleteSubject subject false with
  | .exc m => { success := false, subject := subject, error := some m }
  | .resp _ _ _ =>
      match env.deleteSubject subject true with
      | .exc m => { success := false, subject := subject, error := some m }
      | .resp code text versions =>
          if code = 200 then
            { success := true, subject := subject, deleted_versions := versions,
              message := some ("Permanently deleted " ++ toString versions.length ++ " versions") }
          else
            { success := false, subject := subject,
              error := some ("HTTP " ++ toString code ++ ": " ++ text) }

/-- The sequence of `DELETE /subjects/{subject}` requests (subject,
permanent flag) that `hard_delete_subject` actually issues: the
soft-delete always goes first; the permanent delete follows unless the
soft-delete call raised. -/
def hard_delete_calls (env : PurgerEnv) (subject : String) :
    List (String × Bool) :=
  match env.deleteSubject subject false with
  | .exc _ => [(subject, false)]
  | .resp _ _ _ => [(subject, false), (subject, true)]

/-- The accounting dict of `bulk_soft_delete` / `bulk_hard_delete`
(`timestamp` omitted: it is ambient wall-clock data). -/
structure BulkResult where
  total : Nat
  successful : List DelResult
  failed : List DelResult
  success_count : Nat
  failure_count : Nat

/-- `SchemaPurger.bulk_soft_delete`: soft-delete each subject in turn,
appending the per-subject result to `successful` or `failed`; the counts
are the lengths of those lists. -/
def bulk_soft_delete (env : PurgerEnv) (subjects : List String) : BulkResult :=
  let outcomes := subjects.map (soft_delete_subject env)
  { total := subjects.length
    successful := outcomes.filter (fun r => r.success)
    failed := outcomes.filter (fun r => !r.success)
    success_count := (outcomes.filter (fun r => r.success)).length
    failure_count := (outcomes.filter (fun r => !r.success)).length }

/-- `SchemaPurger.bulk_hard_delete`: same accounting loop with
`hard_delete_subject`. -/
def bulk_hard_delete (env : PurgerEnv) (subjects : List String) : BulkResult :=
  let outcomes := subjects.map (hard_delete_subject env)
  { total := subjects.length
    successful := outcomes.filter (fun r => r.success)
    failed := outcomes.filter (fun r => !r.success)
    success_count := (outcomes.filter (fun r => r.success)).length
    failure_count := (outcomes.filter (fun r => !r.success)).length }

/-- Return value of `SchemaPurger.purge_soft_deleted`: the zero-count
success dict `{"success": True, "message": "No soft-deleted subjects
found", "count": 0}`, the bulk result, or the caught-exception dict. -/
inductive PurgeResult where
  | noneFound : PurgeResult
  | bulk (r : BulkResult) : PurgeResult
  | err (msg : String) : PurgeResult

/-- `SchemaPurger.purge_soft_deleted`: list subjects with and without
`deleted=true`, keep those in the first list but not the second, and hand
the non-empty remainder to `bulk_hard_delete`. -/
def purge_soft_deleted (env : PurgerEnv) : PurgeResult :=
  match get_all_subjects env true with
  | .error m => .err m
  | .ok soft_deleted =>
      match get_all_subjects env false with
      | .error m => .err m
      | .ok active =>
          let deleted_subjects := soft_deleted.filter (fun s => !active.contains s)
          if deleted_subjects.isEmpty then .noneFound
          else .bulk (bulk_hard_delete env deleted_subjects)

/-- Auxiliary for Python substring search: does the haystack start with
the needle? -/
def startsWithL : List Char → List Char → Bool
  | _, [] => true
  | [], _ :: _ => false
  | a :: as, b :: bs => a == b && startsWithL as bs

/-- Python `needle in hay` on strings: contiguous-substring test. -/
def containsL : List Char → List Char → Bool
  | hay, needle =>
      startsWithL hay needle ||
        match hay with
        | [] => false
        | _ :: t => containsL t needle

def strContains (hay needle : String) : Bool :=
  containsL hay.toList needle.toList

/-- `SchemaPurger.get_subjects_by_filter`: list all active subjects and
keep a subject when (`min_versions` is `None` or
`details.get("version_count", 0)` is not below it) and (`pattern` is
`None` or empty — Python falsy — or a substring of the subject name). -/
def get_subjects_by_filter (env : PurgerEnv) (min_versions : Option Nat)
    (pattern : Option String) : Except String (List String) :=
  match get_all_subjects env false with
  | .error m => .error ("Failed to filter subjects: " ++ m)
  | .ok all_subjects =>
      .ok (all_subjects.filter (fun subject =>
        (match min_versions with
         | none => true
         | some m =>
             !(detailsVersionCount (get_subject_details env subject) < m)) &&
        (match pattern with
         | none => true
         | some p => if p = "" then true else strContains subject p)))

/-! ## Helper lemmas -/

/-- Dict lookup on a `JVal` when it is an object, `none` otherwise. -/
def jGetO (v : JVal) (k : String) : Option JVal :=
  match v with
  | .obj kvs => jGet kvs k
  | _ => none

lemma foldl_append_join {α : Type} (f : α → List String) :
    ∀ (l : List α) (acc : List String),
      l.foldl (fun a c => a ++ f c) acc = acc ++ (l.map f).flatten := by
  intro l
  induction l with
  | nil => intro acc; simp
  | cons c t ih => intro acc; simp [List.foldl_cons, ih]

lemma summarize_status_rule (issues warnings : List String) :
    ((summarize issues warnings).status = "CRITICAL" ↔ issues ≠ []) ∧
    ((summarize issues warnings).status = "WARNING" ↔
        issues = [] ∧ warnings ≠ []) ∧
    ((summarize issues warnings).status = "OK" ↔
        issues = [] ∧ warnings = []) := by
  cases issues <;> cases warnings <;>
    simp [summarize, List.isEmpty] <;> decide

lemma check_all_issues_eq (checks : List CheckOutcome) :
    (check_all checks).issues = (checks.map (fun c => c.issues)).flatten ∧
    (check_all checks).warnings = (checks.map (fun c => c.warnings)).flatten := by
  constructor <;> simp [check_all, summarize, foldl_append_join]

/-- C1.  For every run of the health audit, the overall report status is
`CRITICAL` iff the accumulated issues list is non-empty, `WARNING` iff the
issues list is empty and the warnings list is non-empty, and `OK`
otherwise; and a check outcome that appends no issue and no warning entry
(as a per-check `ERROR` result does) leaves the aggregate status
unchanged wherever it sits in the run. -/
theorem check_all_status_rule :
    (∀ checks : List CheckOutcome,
      ((check_all checks).status = "CRITICAL" ↔ (check_all checks).issues ≠ []) ∧
      ((check_all checks).status = "WARNING" ↔
          (check_all checks).issues = [] ∧ (check_all checks).warnings ≠ []) ∧
      ((check_all checks).status = "OK" ↔
          (check_all checks).issues = [] ∧ (check_all checks).warnings = [])) ∧
    (∀ (pre post : List CheckOutcome) (c : CheckOutcome),
      c.issues = [] → c.warnings = [] →
      (check_all (pre ++ c :: post)).status = (check_all (pre ++ post)).status) := by
  constructor
  · intro checks
    have h := check_all_issues_eq checks
    have hs := summarize_status_rule
      ((checks.map (fun c => c.issues)).flatten)
      ((checks.map (fun c => c.warnings)).flatten)
    simp only [check_all, foldl_append_join, List.nil_append] at *
    exact hs
  · intro pre post c hi hw
    simp [check_all, foldl_append_join, hi, hw]

/-- C1 witness: a concrete run where the only check with findings records
one issue; the status is `CRITICAL`, and appending an `ERROR`-style check
with no recorded entries does not change it. -/
theorem check_all_status_rule_witness :
    ((check_all [⟨⟨"CRITICAL", "m", none⟩, ["i1"], []⟩]).status = "CRITICAL" ↔
        (check_all [⟨⟨"CRITICAL", "m", none⟩, ["i1"], []⟩]).issues ≠ []) ∧
    (check_all [⟨⟨"CRITICAL", "m", none⟩, ["i1"], []⟩,
                ⟨⟨"ERROR", "boom", none⟩, [], []⟩]).status =
      (check_all [⟨⟨"CRITICAL", "m", none⟩, ["i1"], []⟩]).status := by
  constructor
  · exact (check_all_status_rule.1 [⟨⟨"CRITICAL", "m", none⟩, ["i1"], []⟩]).1
  · exact check_all_status_rule.2 [⟨⟨"CRITICAL", "m", none⟩, ["i1"], []⟩] []
      ⟨⟨"ERROR", "boom", none⟩, [], []⟩ rfl rfl

/-- C3 (code bug).  Evaluating `_check_subject_count` at a successful
listing of 5001 subjects: because the `count > 1000` branch is tested
before the `count > 5000` branch, the check classifies 5001 subjects as
`WARNING` with a warning entry — the `CRITICAL`/issue branch of the
source is unreachable. -/
theorem subject_count_at_5001 :
    (check_subject_count (.resp 200 "" (List.replicate 5001 "s"))).result.status
        = "WARNING" ∧
    (check_subject_count (.resp 200 "" (List.replicate 5001 "s"))).issues = [] ∧
    (check_subject_count (.resp 200 "" (List.replicate 5001 "s"))).warnings
        = ["High subject count: 5001"] ∧
    (check_subject_count (.resp 200 "" (List.replicate 5001 "s"))).result.status
        ≠ "CRITICAL" := by
  have hlen : (List.replicate 5001 "s").length = 5001 := List.length_replicate _ _
  have h : check_subject_count (.resp 200 "" (List.replicate 5001 "s")) =
      { result := { status := "WARNING",
                    message := "Total subjects: " ++ toString 5001,
                    count := some 5001 },
        issues := [],
        warnings := ["High subject count: " ++ toString 5001] } := by
    simp only [check_subject_count, hlen]
    norm_num
  rw [h]
  exact ⟨rfl, rfl, by rfl, by decide⟩

/-- C6.  Translation of malformed schema text (a `json.loads` failure)
does not escape the component: it yields the generic object node whose
diagnostic description is the non-empty string `"Schema conversion
error"`, and example generation independently yields the empty mapping. -/
theorem malformed_input_degrades : ∀ e : PyErr,
    avro_to_asyncapi_schema (.error e) =
      .obj [("type", .str "object"),
            ("description", .str "Schema conversion error")] ∧
    jGetO (avro_to_asyncapi_schema (.error e)) "type" = some (.str "object") ∧
    (∃ d : String, jGetO (avro_to_asyncapi_schema (.error e)) "description"
        = some (.str d) ∧ d ≠ "") ∧
    extract_message_examples (.error e) = .obj [] := by
  intro e
  refine ⟨rfl, rfl, ⟨"Schema conversion error", rfl, by decide⟩, rfl⟩

lemma convert_arr_cons (ts : List JVal) (t : JVal) (rest : List JVal)
    (h : ts.filter (fun u => !isNullLit u) = t :: rest) :
    convert_avro_type (.arr ts) = convert_avro_type t := by
  rw [convert_avro_type.eq_2]
  split
  · rename_i t2 rest2 heq
    rw [h] at heq
    cases heq
    rfl
  · rename_i heq
    rw [h] at heq
    cases heq

lemma convert_arr_nil (ts : List JVal)
    (h : ts.filter (fun u => !isNullLit u) = []) :
    convert_avro_type (.arr ts) = .obj [("type", .str "null")] := by
  rw [convert_avro_type.eq_2]
  split
  · rename_i t2 rest2 heq
    rw [h] at heq
    cases heq
  · rfl

lemma gen_arr_cons (ts : List JVal) (t : JVal) (rest : List JVal)
    (h : ts.filter (fun u => !isNullLit u) = t :: rest) :
    generate_example_value (.arr ts) = generate_example_value t := by
  rw [generate_example_value.eq_2]
  split
  · rename_i t2 rest2 heq
    rw [h] at heq
    cases heq
    rfl
  · rename_i heq
    rw [h] at heq
    cases heq

lemma gen_arr_nil (ts : List JVal)
    (h : ts.filter (fun u => !isNullLit u) = []) :
    generate_example_value (.arr ts) = .ok .null := by
  rw [generate_example_value.eq_2]
  split
  · rename_i t2 rest2 heq
    rw [h] at heq
    cases heq
  · rfl

/-- C4.  Union translation: the translator and the example generator drop
the `"null"` members of a union and behave on the union exactly as on the
first remaining member; a union whose members are all `"null"` yields the
null-typed node and the null example.  In particular
`["null", "string"]` translates identically to `"string"`. -/
theorem union_first_nonnull :
    (∀ (ts : List JVal) (t : JVal) (rest : List JVal),
      ts.filter (fun u => !isNullLit u) = t :: rest →
      convert_avro_type (.arr ts) = convert_avro_type t ∧
      generate_example_value (.arr ts) = generate_example_value t) ∧
    (∀ ts : List JVal,
      ts.filter (fun u => !isNullLit u) = [] →
      convert_avro_type (.arr ts) = .obj [("type", .str "null")] ∧
      generate_example_value (.arr ts) = .ok .null) := by
  constructor
  · intro ts t rest h
    exact ⟨convert_arr_cons ts t rest h, gen_arr_cons ts t rest h⟩
  · intro ts h
    exact ⟨convert_arr_nil ts h, gen_arr_nil ts h⟩

/-- C4 witness: the concrete unions from the claim, evaluated. -/
theorem union_first_nonnull_witness :
    List.filter (fun u => !isNullLit u) [JVal.str "null", JVal.str "string"]
        = [JVal.str "string"] ∧
    convert_avro_type (.arr [.str "null", .str "string"])
        = convert_avro_type (.str "string") ∧
    generate_example_value (.arr [.str "null", .str "string"])
        = generate_example_value (.str "string") ∧
    List.filter (fun u => !isNullLit u) [JVal.str "null"] = [] ∧
    convert_avro_type (.arr [.str "null"]) = .obj [("type", .str "null")] ∧
    generate_example_value (.arr [.str "null"]) = .ok .null := by
  refine ⟨by rfl, ?_, ?_, by rfl, ?_, ?_⟩
  · exact (union_first_nonnull.1 [JVal.str "null", JVal.str "string"]
      (JVal.str "string") [] (by rfl)).1
  · exact (union_first_nonnull.1 [JVal.str "null", JVal.str "string"]
      (JVal.str "string") [] (by rfl)).2
  · exact (union_first_nonnull.2 [JVal.str "null"] (by rfl)).1
  · exact (union_first_nonnull.2 [JVal.str "null"] (by rfl)).2

lemma length_filter_map {α β : Type} (f : α → β) (p : β → Bool) (l : List α) :
    ((l.map f).filter p).length = (l.filter (fun a => p (f a))).length := by
  induction l with
  | nil => rfl
  | cons a t ih => cases hp : p (f a) <;> simp [List.filter_cons, hp, ih]

lemma length_filter_partition {α : Type} (p : α → Bool) (l : List α) :
    (l.filter p).length + (l.filter (fun a => !p a)).length = l.length := by
  induction l with
  | nil => simp
  | cons a t ih =>
      cases hp : p a <;> simp [List.filter_cons, hp] <;> omega

/-- C2.  Bulk deletion accounting: for every environment and every input
list, both bulk operations report `total` equal to the input length and
`success_count + failure_count = total` (all zero on the empty list);
every subject of the input has its own outcome recorded in `successful`
or `failed`, that outcome depending only on the registry's answer for
that subject, so no failure stops the remaining subjects. -/
theorem bulk_delete_accounting :
    ∀ (env : PurgerEnv) (subjects : List String),
      ((bulk_soft_delete env subjects).total = subjects.length ∧
       (bulk_soft_delete env subjects).success_count +
           (bulk_soft_delete env subjects).failure_count =
         (bulk_soft_delete env subjects).total ∧
       (bulk_hard_delete env subjects).total = subjects.length ∧
       (bulk_hard_delete env subjects).success_count +
           (bulk_hard_delete env subjects).failure_count =
         (bulk_hard_delete env subjects).total) ∧
      (subjects = [] →
        (bulk_soft_delete env subjects).success_count = 0 ∧
        (bulk_soft_delete env subjects).failure_count = 0 ∧
        (bulk_hard_delete env subjects).success_count = 0 ∧
        (bulk_hard_delete env subjects).failure_count = 0) ∧
      ((bulk_soft_delete env subjects).success_count =
          (subjects.filter (fun s => (soft_delete_subject env s).success)).length ∧
       (bulk_hard_delete env subjects).success_count =
          (subjects.filter (fun s => (hard_delete_subject env s).success)).length) ∧
      (∀ s ∈ subjects,
        (soft_delete_subject env s ∈ (bulk_soft_delete env subjects).successful ∨
         soft_delete_subject env s ∈ (bulk_soft_delete env subjects).failed) ∧
        (hard_delete_subject env s ∈ (bulk_hard_delete env subjects).successful ∨
         hard_delete_subject env s ∈ (bulk_hard_delete env subjects).failed)) := by
  intro env subjects
  refine ⟨⟨rfl, ?_, rfl, ?_⟩, ?_, ⟨?_, ?_⟩, ?_⟩
  · simp only [bulk_soft_delete]
    exact length_filter_partition _ _ |>.trans (by simp)
  · simp only [bulk_hard_delete]
    exact length_filter_partition _ _ |>.trans (by simp)
  · intro h; subst h; exact ⟨rfl, rfl, rfl, rfl⟩
  · simp only [bulk_soft_delete]
    exact length_filter_map _ _ _
  · simp only [bulk_hard_delete]
    exact length_filter_map _ _ _
  · intro s hs
    constructor
    · cases hsucc : (soft_delete_subject env s).success
      · right
        simp only [bulk_soft_delete]
        exact List.mem_filter.mpr
          ⟨List.mem_map_of_mem _ hs, by simp [hsucc]⟩
      · left
        simp only [bulk_soft_delete]
        exact List.mem_filter.mpr
          ⟨List.mem_map_of_mem _ hs, by simp [hsucc]⟩
    · cases hsucc : (hard_delete_subject env s).success
      · right
        simp only [bulk_hard_delete]
        exact List.mem_filter.mpr
          ⟨List.mem_map_of_mem _ hs, by simp [hsucc]⟩
      · left
        simp only [bulk_hard_delete]
        exact List.mem_filter.mpr
          ⟨List.mem_map_of_mem _ hs, by simp [hsucc]⟩

/-- Registry used by the witnesses: active subjects `a` and `b` (and a
soft-deleted `gone` visible only with `deleted=true`); deleting `b` gets
HTTP 404, deleting anything else succeeds; listing versions of `b` times
out, `a` has three versions, everything else one. -/
def envW : PurgerEnv :=
  { subjectsList := fun incl =>
      if incl then .resp 200 "" ["a", "b", "gone"] else .resp 200 "" ["a", "b"]
    deleteSubject := fun s _ =>
      if s = "b" then .resp 404 "not found" [] else .resp 200 "" [1, 2]
    deleteVersion := fun _ _ => .resp 200 "" .null
    getVersions := fun s =>
      if s = "a" then .resp 200 "" [1, 2, 3]
      else if s = "b" then .exc "timeout" else .resp 200 "" [1]
    getLatest := fun _ => .resp 200 "" {} }

/-- C2 witness: bulk soft delete of `[a, b]` against `envW`: two
requested, one success (`a`), one failure (`b`), both outcomes
recorded. -/
theorem bulk_delete_accounting_witness :
    (bulk_soft_delete envW ["a", "b"]).total = 2 ∧
    (bulk_soft_delete envW ["a", "b"]).success_count +
        (bulk_soft_delete envW ["a", "b"]).failure_count =
      (bulk_soft_delete envW ["a", "b"]).total ∧
    ("a" ∈ (["a", "b"] : List String) ∧
      (soft_delete_subject envW "a" ∈ (bulk_soft_delete envW ["a", "b"]).successful ∨
       soft_delete_subject envW "a" ∈ (bulk_soft_delete envW ["a", "b"]).failed)) := by
  refine ⟨(bulk_delete_accounting envW ["a", "b"]).1.1, ?_, ?_⟩
  · exact (bulk_delete_accounting envW ["a", "b"]).1.2.1
  · exact ⟨by decide, ((bulk_delete_accounting envW ["a", "b"]).2.2.2 "a"
      (by decide)).1⟩

/-- Registry where the plain (soft) `DELETE /subjects/{s}` raises a
timeout but the permanent delete would answer 200. -/
def envSoftExc : PurgerEnv :=
  { subjectsList := fun _ => .resp 200 "" []
    deleteSubject := fun _ perm =>
      if perm then .resp 200 "" [] else .exc "timeout"
    deleteVersion := fun _ _ => .resp 200 "" .null
    getVersions := fun _ => .resp 200 "" []
    getLatest := fun _ => .resp 200 "" {} }

/-- Registry where both delete calls answer 200. -/
def envSoftOk : PurgerEnv :=
  { subjectsList := fun _ => .resp 200 "" []
    deleteSubject := fun _ _ => .resp 200 "" []
    deleteVersion := fun _ _ => .resp 200 "" .null
    getVersions := fun _ => .resp 200 "" []
    getLatest := fun _ => .resp 200 "" {} }

/-- C7 counterexample: the two environments agree on the permanent-delete
response (HTTP 200), yet `hard_delete_subject` fails in one and succeeds
in the other — because an exception raised by the soft-delete call is
caught by the surrounding `try` and reported as failure.  So the
soft-delete step's outcome is not entirely unchecked: only its HTTP
status is ignored. -/
theorem hard_delete_soft_exception_counterexample :
    envSoftExc.deleteSubject "s" true = envSoftOk.deleteSubject "s" true ∧
    (hard_delete_subject envSoftExc "s").success = false ∧
    (hard_delete_subject envSoftOk "s").success = true := by
  exact ⟨rfl, rfl, rfl⟩

/-- C7 (amended).  `hard_delete_subject` always issues the soft-delete
call first; whenever that call completes with an HTTP response — whatever
its status or body — the permanent delete is issued next and the final
result is determined by the permanent-delete response alone (success
exactly on HTTP 200).  A transport exception during the soft-delete call,
however, is caught and reported as failure without issuing the permanent
delete. -/
theorem hard_delete_sequencing :
    (∀ (env env' : PurgerEnv) (s : String) (c : Nat) (t : String)
        (b : List Int) (c' : Nat) (t' : String) (b' : List Int),
      env.deleteSubject s false = .resp c t b →
      env'.deleteSubject s false = .resp c' t' b' →
      env.deleteSubject s true = env'.deleteSubject s true →
      hard_delete_subject env s = hard_delete_subject env' s) ∧
    (∀ (env : PurgerEnv) (s : String) (c : Nat) (t : String) (b : List Int),
      env.deleteSubject s false = .resp c t b →
      hard_delete_calls env s = [(s, false), (s, true)] ∧
      ((hard_delete_subject env s).success = true ↔
        ∃ (t2 : String) (b2 : List Int),
          env.deleteSubject s true = .resp 200 t2 b2)) ∧
    (∀ (env : PurgerEnv) (s : String) (m : String),
      env.deleteSubject s false = .exc m →
      (hard_delete_subject env s).success = false ∧
      hard_delete_calls env s = [(s, false)]) := by
  refine ⟨?_, ?_, ?_⟩
  · intro env env' s c t b c' t' b' h1 h2 h3
    simp only [hard_delete_subject, h1, h2, h3]
  · intro env s c t b h1
    refine ⟨by simp only [hard_delete_calls, h1], ?_⟩
    simp only [hard_delete_subject, h1]
    cases h2 : env.deleteSubject s true with
    | exc m => simp [h2]
    | resp code text versions =>
        by_cases hc : code = 200
        · subst hc
          constructor
          · intro _
            exact ⟨text, versions, rfl⟩
          · intro _
            rfl
        · simp only [if_neg hc]
          constructor
          · intro hfalse; cases hfalse
          · rintro ⟨t2, b2, heq⟩
            cases heq
            exact absurd rfl hc
  · intro env s m h1
    exact ⟨by simp only [hard_delete_subject, h1], by simp only [hard_delete_calls, h1]⟩

/-- C7 witness: against `envW` (where every delete of `a` answers 200)
the hard delete of `a` issues soft then permanent delete and succeeds;
against `envSoftExc` the soft-delete timeout stops the sequence. -/
theorem hard_delete_sequencing_witness :
    hard_delete_calls envW "a" = [("a", false), ("a", true)] ∧
    (hard_delete_subject envW "a").success = true ∧
    (hard_delete_subject envSoftExc "a").success = false ∧
    hard_delete_calls envSoftExc "a" = [("a", false)] := by
  refine ⟨(hard_delete_sequencing.2.1 envW "a" 200 "" [1, 2] rfl).1, ?_, ?_, ?_⟩
  · exact (hard_delete_sequencing.2.1 envW "a" 200 "" [1, 2] rfl).2.mpr ⟨"", [1, 2], rfl⟩
  · exact (hard_delete_sequencing.2.2 envSoftExc "a" "timeout" rfl).1
  · exact (hard_delete_sequencing.2.2 envSoftExc "a" "timeout" rfl).2

/-- C8.  `purge_soft_deleted` keeps exactly the subjects present in the
`deleted=true` listing but absent from the plain listing (the set
difference); when that remainder is empty it returns the zero-count
success, otherwise it returns exactly the result of `bulk_hard_delete` on
the remainder. -/
theorem purge_set_difference :
    ∀ (env : PurgerEnv) (sd act : List String),
      get_all_subjects env true = .ok sd →
      get_all_subjects env false = .ok act →
      (∀ s, s ∈ sd.filter (fun x => !act.contains x) ↔ s ∈ sd ∧ s ∉ act) ∧
      (sd.filter (fun x => !act.contains x) = [] →
        purge_soft_deleted env = .noneFound) ∧
      (sd.filter (fun x => !act.contains x) ≠ [] →
        purge_soft_deleted env =
          .bulk (bulk_hard_delete env (sd.filter (fun x => !act.contains x)))) := by
  intro env sd act h1 h2
  refine ⟨?_, ?_, ?_⟩
  · intro s
    simp [List.mem_filter]
  · intro hd
    simp only [purge_soft_deleted, h1, h2, hd]
    rfl
  · intro hd
    simp only [purge_soft_deleted, h1, h2]
    rw [if_neg (by simpa [List.isEmpty_iff] using hd)]

/-- C8 witness: against `envW` the difference is `["gone"]`, non-empty,
and the purge returns the bulk hard delete of exactly that list. -/
theorem purge_set_difference_witness :
    (("gone" ∈ (["a", "b", "gone"] : List String).filter
        (fun x => !(["a", "b"] : List String).contains x)) ↔
      ("gone" ∈ (["a", "b", "gone"] : List String) ∧
        "gone" ∉ (["a", "b"] : List String))) ∧
    purge_soft_deleted envW =
      .bulk (bulk_hard_delete envW
        ((["a", "b", "gone"] : List String).filter
          (fun x => !(["a", "b"] : List String).contains x))) := by
  constructor
  · exact (purge_set_difference envW ["a", "b", "gone"] ["a", "b"] rfl rfl).1 "gone"
  · exact (purge_set_difference envW ["a", "b", "gone"] ["a", "b"] rfl rfl).2.2
      (by decide)

lemma startsWithL_nil (l : List Char) : startsWithL l [] = true := by
  cases l <;> rfl

lemma strContains_empty (s : String) : strContains s "" = true := by
  unfold strContains
  show containsL s.toList [] = true
  rw [containsL.eq_def]
  simp [startsWithL_nil]

/-- The per-subject condition of `get_subjects_by_filter`, exactly as the
source computes it (the `include` flag): not excluded by the version-count
leg, not excluded by the pattern leg. -/
def subjectPassesCode (env : PurgerEnv) (min_versions : Option Nat)
    (pattern : Option String) (subject : String) : Bool :=
  (match min_versions with
   | none => true
   | some m => !(detailsVersionCount (get_subject_details env subject) < m)) &&
  (match pattern with
   | none => true
   | some p => if p = "" then true else strContains subject p)

/-- The filter condition as the specification words it: `minVersions`
unset or version count at least `minVersions`, and `pattern` unset or a
literal substring of the subject name.  Stated separately so the source
condition can be proved equal to it. -/
def subjectPassesClaim (env : PurgerEnv) (min_versions : Option Nat)
    (pattern : Option String) (subject : String) : Bool :=
  (match min_versions with
   | none => true
   | some m => decide (m ≤ detailsVersionCount (get_subject_details env subject))) &&
  (match pattern with
   | none => true
   | some p => strContains subject p)

lemma subjectPasses_code_eq_claim (env : PurgerEnv) (minV : Option Nat)
    (pattern : Option String) (s : String) :
    subjectPassesCode env minV pattern s = subjectPassesClaim env minV pattern s := by
  unfold subjectPassesCode subjectPassesClaim
  congr 1
  · cases minV with
    | none => rfl
    | some m =>
        by_cases h : detailsVersionCount (get_subject_details env s) < m <;>
          simp [h] <;> omega
  · cases pattern with
    | none => rfl
    | some p =>
        by_cases hp : p = ""
        · subst hp; simp [strContains_empty]
        · simp [hp]

lemma get_subjects_by_filter_ok (env : PurgerEnv) (minV : Option Nat)
    (pattern : Option String) (subjects : List String)
    (h1 : get_all_subjects env false = .ok subjects) :
    get_subjects_by_filter env minV pattern =
      .ok (subjects.filter (subjectPassesCode env minV pattern)) := by
  simp only [get_subjects_by_filter, h1]
  rfl

/-- C9.  The subject filter is the conjunction the claim states: the call
returns (in registry listing order, as an order-preserving `filter`)
exactly the subjects for which (`minVersions` unset or the recorded
version count is at least it) and (`pattern` unset or a literal substring
of the name). -/
theorem filter_conjunction_rule :
    ∀ (env : PurgerEnv) (minV : Option Nat) (pattern : Option String)
      (subjects : List String),
      get_all_subjects env false = .ok subjects →
      ∃ l, get_subjects_by_filter env minV pattern = .ok l ∧
        l = subjects.filter (subjectPassesClaim env minV pattern) ∧
        (∀ s, s ∈ l ↔ s ∈ subjects ∧
            (∀ m, minV = some m →
              m ≤ detailsVersionCount (get_subject_details env s)) ∧
            (∀ p, pattern = some p → strContains s p = true)) := by
  intro env minV pattern subjects h1
  have hfun : subjectPassesCode env minV pattern =
      subjectPassesClaim env minV pattern := by
    funext s
    exact subjectPasses_code_eq_claim env minV pattern s
  refine ⟨_, get_subjects_by_filter_ok env minV pattern subjects h1, ?_, ?_⟩
  · rw [hfun]
  · intro s
    rw [hfun, List.mem_filter]
    constructor
    · rintro ⟨hs, hq⟩
      unfold subjectPassesClaim at hq
      simp only [Bool.and_eq_true] at hq
      refine ⟨hs, ?_, ?_⟩
      · intro m hm
        rw [hm] at hq
        simpa using hq.1
      · intro p hp
        rw [hp] at hq
        exact hq.2
    · rintro ⟨hs, hmin, hpat⟩
      refine ⟨hs, ?_⟩
      unfold subjectPassesClaim
      simp only [Bool.and_eq_true]
      constructor
      · cases minV with
        | none => rfl
        | some m => simpa using hmin m rfl
      · cases pattern with
        | none => rfl
        | some p => exact hpat p rfl

/-- C9 witness: against `envW` with `minVersions = 2` and pattern `"a"`,
only subject `a` passes (it has three versions and contains `"a"`;
`b` fails both legs: its version fetch times out, giving count 0). -/
theorem filter_conjunction_rule_witness :
    get_subjects_by_filter envW (some 2) (some "a") = .ok ["a"] ∧
    ("a" ∈ (["a"] : List String) ↔
      "a" ∈ (["a", "b"] : List String) ∧
      (∀ m, (some 2 : Option Nat) = some m →
        m ≤ detailsVersionCount (get_subject_details envW "a")) ∧
      (∀ p, (some "a" : Option String) = some p → strContains "a" p = true)) := by
  obtain ⟨l, hl, hfilter, hmem⟩ :=
    filter_conjunction_rule envW (some 2) (some "a") ["a", "b"] rfl
  have hval : l = ["a"] := by rw [hfilter]; rfl
  subst hval
  exact ⟨hl, hmem "a"⟩

/-- C10.  When fetching a subject's details fails (the details call
returns the error dict), `details.get("version_count", 0)` yields 0, and
for any `minVersions ≥ 1` the subject is silently dropped from the
filtered listing — the call still returns a plain list, reporting no
error. -/
theorem filter_details_failure_silent :
    ∀ (env : PurgerEnv) (m : Nat) (pattern : Option String)
      (subjects : List String) (s emsg : String),
      1 ≤ m →
      get_all_subjects env false = .ok subjects →
      get_subject_details env s = .err s emsg →
      detailsVersionCount (get_subject_details env s) = 0 ∧
      ∃ l, get_subjects_by_filter env (some m) pattern = .ok l ∧ s ∉ l := by
  intro env m pattern subjects s emsg hm h1 h2
  have hvc : detailsVersionCount (get_subject_details env s) = 0 := by
    rw [h2]; rfl
  refine ⟨hvc, _, get_subjects_by_filter_ok env (some m) pattern subjects h1, ?_⟩
  intro hmem
  obtain ⟨hs, hq⟩ := List.mem_filter.mp hmem
  unfold subjectPassesCode at hq
  simp only [Bool.and_eq_true] at hq
  have h0 : detailsVersionCount (get_subject_details env s) < m := by omega
  simpa [h0] using hq.1

/-- C10 witness: against `envW`, the version fetch of `b` times out, so
`b` has recorded count 0 and is missing from the `minVersions = 1`
listing, which still returns successfully. -/
theorem filter_details_failure_silent_witness :
    detailsVersionCount (get_subject_details envW "b") = 0 ∧
    ∃ l, get_subjects_by_filter envW (some 1) none = .ok l ∧ "b" ∉ l := by
  exact filter_details_failure_silent envW 1 none ["a", "b"] "b" "timeout"
    (by decide) rfl rfl

/-! ## Record-field machinery for the default-value rule (C5) -/

/-- The name of a record field (the value under its `"name"` key); junk
default for ill-formed fields. -/
def nameOf (f : JVal) : String :=
  match f with
  | .obj fkvs =>
      match jGet fkvs "name" with
      | some (.str n) => n
      | _ => ""
  | _ => ""

/-- Python `"default" in field`. -/
def hasDefault (f : JVal) : Bool :=
  match f with
  | .obj fkvs => jHas fkvs "default"
  | _ => false

/-- A well-formed record field: an object with a string `"name"` and a
`"type"` key. -/
def FieldWF (f : JVal) : Prop :=
  ∃ fkvs n t, f = .obj fkvs ∧ jGet fkvs "name" = some (.str n) ∧
    jGet fkvs "type" = some t

/-- The names collected into the `required` list by the field loop: the
fields without a `"default"` key, in order. -/
def requiredNames (fields : List JVal) : List String :=
  (fields.filter (fun f => !hasDefault f)).map nameOf

/-- The example the extraction loop records for a field: its declared
default verbatim if present, the outcome of example generation (which may
raise) otherwise. -/
def exValueOf (fkvs : List (String × JVal)) (t : JVal) : Except PyErr JVal :=
  match jGet fkvs "default" with
  | some d => .ok d
  | none => generate_example_value t

lemma jHas_eq_isSome (kvs : List (String × JVal)) (k : String) :
    jHas kvs k = (jGet kvs k).isSome := by
  unfold jHas jGet
  induction kvs with
  | nil => rfl
  | cons p t ih =>
      cases hp : (p.1 == k) <;>
        simp [List.any_cons, List.find?_cons, hp, ih]

lemma jGet_nil (k : String) : jGet [] k = none := rfl

lemma jGet_cons (p : String × JVal) (t : List (String × JVal)) (k : String) :
    jGet (p :: t) k = if (p.1 == k) = true then some p.2 else jGet t k := by
  unfold jGet
  rw [List.find?_cons]
  cases hp : (p.1 == k) <;> simp [hp]

lemma jGet_dictSet_self (kvs : List (String × JVal)) (k : String) (v : JVal) :
    jGet (dictSet kvs k v) k = some v := by
  unfold dictSet
  by_cases h : kvs.any (fun p => p.1 == k) = true
  · rw [if_pos h]
    induction kvs with
    | nil => simp at h
    | cons p t ih =>
        by_cases hp : (p.1 == k) = true
        · rw [List.map_cons, if_pos hp, jGet_cons]
          simp
        · simp only [List.any_cons, Bool.or_eq_true] at h
          have ht : t.any (fun p => p.1 == k) = true := h.resolve_left hp
          rw [List.map_cons, if_neg hp, jGet_cons, if_neg hp]
          exact ih ht
  · rw [if_neg h]
    induction kvs with
    | nil =>
        rw [List.nil_append, jGet_cons]
        simp
    | cons p t ih =>
        simp only [List.any_cons, Bool.or_eq_true, not_or] at h
        rw [List.cons_append, jGet_cons, if_neg h.1]
        exact ih (by simpa using h.2)

lemma jGet_replace_other (t : List (String × JVal)) (k k2 : String) (v : JVal)
    (h : k2 ≠ k) :
    jGet (t.map (fun p => if (p.1 == k) = true then (k, v) else p)) k2
      = jGet t k2 := by
  have hk2f : ¬ ((k == k2) = true) := by
    simp [beq_eq_false_iff_ne.mpr (fun hh => h hh.symm)]
  induction t with
  | nil => rfl
  | cons p t ih =>
      by_cases hp : (p.1 == k) = true
      · have hp1 : p.1 = k := eq_of_beq hp
        rw [List.map_cons, if_pos hp, jGet_cons, jGet_cons]
        rw [if_neg hk2f, if_neg (by rw [hp1]; exact hk2f)]
        exact ih
      · rw [List.map_cons, if_neg hp, jGet_cons, jGet_cons]
        by_cases hpk2 : (p.1 == k2) = true
        · rw [if_pos hpk2, if_pos hpk2]
        · rw [if_neg hpk2, if_neg hpk2]
          exact ih

lemma jGet_dictSet_other (kvs : List (String × JVal)) (k : String) (v : JVal)
    (k2 : String) (h : k2 ≠ k) :
    jGet (dictSet kvs k v) k2 = jGet kvs k2 := by
  have hk2f : ¬ ((k == k2) = true) := by
    simp [beq_eq_false_iff_ne.mpr (fun hh => h hh.symm)]
  unfold dictSet
  by_cases hany : kvs.any (fun p => p.1 == k) = true
  · rw [if_pos hany]
    exact jGet_replace_other kvs k k2 v h
  · rw [if_neg hany]
    induction kvs with
    | nil =>
        rw [List.nil_append, jGet_cons, if_neg hk2f]
    | cons p t ih =>
        simp only [List.any_cons, Bool.or_eq_true, not_or] at hany
        rw [List.cons_append, jGet_cons, jGet_cons]
        by_cases hpk2 : (p.1 == k2) = true
        · rw [if_pos hpk2, if_pos hpk2]
        · rw [if_neg hpk2, if_neg hpk2]
          exact ih (by simpa using hany.2)

lemma convert_logical_shape (kvs : List (String × JVal)) :
    ∃ v rest, convert_logical kvs = JVal.obj (("type", v) :: rest) := by
  unfold convert_logical
  split <;> exact ⟨_, _, rfl⟩

/-- Every node the translator produces is an object whose first key is
`"type"` (so `json_type["type"]` in the field loop never raises). -/
lemma convert_avro_type_shape (t : JVal) :
    ∃ v rest, convert_avro_type t = JVal.obj (("type", v) :: rest) := by
  induction t using convert_avro_type.induct with
  | case1 =>
      exact ⟨.str "string", [], by rw [convert_avro_type.eq_1]; simp⟩
  | case2 h1 =>
      exact ⟨.str "integer", [], by rw [convert_avro_type.eq_1]; simp⟩
  | case3 h1 h2 =>
      exact ⟨.str "integer", [("format", .str "int64")],
        by rw [convert_avro_type.eq_1]; simp⟩
  | case4 h1 h2 h3 =>
      exact ⟨.str "number", [("format", .str "float")],
        by rw [convert_avro_type.eq_1]; simp⟩
  | case5 h1 h2 h3 h4 =>
      exact ⟨.str "number", [("format", .str "double")],
        by rw [convert_avro_type.eq_1]; simp⟩
  | case6 h1 h2 h3 h4 h5 =>
      exact ⟨.str "boolean", [], by rw [convert_avro_type.eq_1]; simp⟩
  | case7 h1 h2 h3 h4 h5 h6 =>
      exact ⟨.str "string", [("contentEncoding", .str "base64")],
        by rw [convert_avro_type.eq_1]; simp⟩
  | case8 h1 h2 h3 h4 h5 h6 h7 =>
      exact ⟨.str "null", [], by rw [convert_avro_type.eq_1]; simp⟩
  | case9 s h1 h2 h3 h4 h5 h6 h7 h8 =>
      exact ⟨.str "string", [],
        by rw [convert_avro_type.eq_1]; simp [h1, h2, h3, h4, h5, h6, h7, h8]⟩
  | case10 ts t tail hfil ih =>
      obtain ⟨v, rest, hih⟩ := ih
      exact ⟨v, rest, by rw [convert_arr_cons ts t tail hfil]; exact hih⟩
  | case11 ts hfil => exact ⟨_, _, convert_arr_nil ts hfil⟩
  | case12 kvs hty =>
      exact ⟨.str "string", [("enum", (jGet kvs "symbols").getD (.arr []))],
        by rw [convert_avro_type.eq_3, hty]; rfl⟩
  | case13 kvs hty ih =>
      exact ⟨.str "array", [("items", convert_avro_type ((jGet kvs "items").getD .null))],
        by rw [convert_avro_type.eq_3, hty]; rfl⟩
  | case14 kvs hty =>
      exact ⟨.str "object", [], by rw [convert_avro_type.eq_3, hty]; rfl⟩
  | case15 kvs h1 h2 h3 =>
      have hlog : convert_avro_type (.obj kvs) = convert_logical kvs := by
        rw [convert_avro_type.eq_3]
        split
        · rename_i heq; exact absurd heq h1
        · rename_i heq; exact absurd heq h2
        · rename_i heq; exact absurd heq h3
        · rfl
      obtain ⟨v, rest, hvr⟩ := convert_logical_shape kvs
      exact ⟨v, rest, hlog.trans hvr⟩
  | case16 x h1 h2 h3 =>
      exact ⟨_, _, convert_avro_type.eq_4 x h1 h2 h3⟩

lemma pyIndex_convert_type (t : JVal) :
    ∃ v, pyIndex (convert_avro_type t) "type" = .ok v := by
  obtain ⟨v, rest, hshape⟩ := convert_avro_type_shape t
  refine ⟨v, ?_⟩
  rw [hshape]
  simp only [pyIndex]
  rw [jGet_cons]
  simp

lemma processFields_required :
    ∀ (fields : List JVal) (props : List (String × JVal)) (req : List String),
      (∀ f ∈ fields, FieldWF f) →
      ∃ fp, processFields fields props req = .ok (fp, req ++ requiredNames fields) := by
  intro fields
  induction fields with
  | nil =>
      intro props req hwf
      exact ⟨props, by simp [processFields, requiredNames]⟩
  | cons f rest ih =>
      intro props req hwf
      obtain ⟨fkvs, n, ftype, hf, hname, htype⟩ := hwf f (List.mem_cons_self f rest)
      subst hf
      obtain ⟨tval, hidx⟩ := pyIndex_convert_type ftype
      have hwfr : ∀ g ∈ rest, FieldWF g :=
        fun g hg => hwf g (List.mem_cons_of_mem _ hg)
      cases hdef : jHas fkvs "default" with
      | true =>
          obtain ⟨d, hd⟩ := Option.isSome_iff_exists.mp
            ((jHas_eq_isSome fkvs "default") ▸ hdef)
          have hreq : requiredNames (JVal.obj fkvs :: rest) = requiredNames rest := by
            simp [requiredNames, List.filter_cons, hasDefault, hdef]
          obtain ⟨fp, hp⟩ := ih _ req hwfr
          refine ⟨fp, ?_⟩
          rw [hreq]
          simp only [processFields, hname, htype, hidx, hdef, hd, if_true]
          exact hp
      | false =>
          have hreq : requiredNames (JVal.obj fkvs :: rest)
              = n :: requiredNames rest := by
            have hn : nameOf (JVal.obj fkvs) = n := by simp [nameOf, hname]
            simp [requiredNames, List.filter_cons, hasDefault, hdef, hn]
          obtain ⟨fp, hp⟩ := ih _ (req ++ [n]) hwfr
          refine ⟨fp, ?_⟩
          rw [hreq, List.append_cons]
          simp only [processFields, hname, htype, hidx, hdef]
          exact hp

lemma extractLoop_preserves :
    ∀ (fields : List JVal) (acc exF : List (String × JVal)) (n0 : String),
      (∀ f ∈ fields, FieldWF f) → n0 ∉ fields.map nameOf →
      extractLoop fields acc = .ok exF → jGet exF n0 = jGet acc n0 := by
  intro fields
  induction fields with
  | nil =>
      intro acc exF n0 _ _ h
      simp only [extractLoop] at h
      cases h
      rfl
  | cons f rest ih =>
      intro acc exF n0 hwf hnot h
      obtain ⟨fkvs, n, ftype, hf, hname, htype⟩ := hwf f (List.mem_cons_self f rest)
      subst hf
      have hnameOf : nameOf (JVal.obj fkvs) = n := by simp [nameOf, hname]
      have hn0 : n0 ≠ n := by
        intro hc
        exact hnot (by
          rw [List.map_cons, hnameOf, hc]
          exact List.mem_cons_self _ _)
      have hrest_not : n0 ∉ rest.map nameOf := by
        intro hc
        exact hnot (by rw [List.map_cons]; exact List.mem_cons_of_mem _ hc)
      have hwfr : ∀ g ∈ rest, FieldWF g :=
        fun g hg => hwf g (List.mem_cons_of_mem _ hg)
      cases hdef : jHas fkvs "default" with
      | true =>
          obtain ⟨d, hd⟩ := Option.isSome_iff_exists.mp
            ((jHas_eq_isSome fkvs "default") ▸ hdef)
          simp only [extractLoop, hname, htype, hdef, hd, if_true] at h
          rw [ih _ _ _ hwfr hrest_not h]
          exact jGet_dictSet_other acc n d n0 hn0
      | false =>
          simp only [extractLoop, hname, htype, hdef, Bool.false_eq_true,
            if_false] at h
          cases hgen : generate_example_value ftype with
          | error e =>
              rw [hgen] at h
              cases h
          | ok v =>
              rw [hgen] at h
              rw [ih _ _ _ hwfr hrest_not h]
              exact jGet_dictSet_other acc n _ n0 hn0

lemma extractLoop_lookup :
    ∀ (fields : List JVal) (acc : List (String × JVal)),
      (∀ f ∈ fields, FieldWF f) → (fields.map nameOf).Nodup →
      (∀ f ∈ fields, ∀ (fkvs : List (String × JVal)) (t : JVal),
        f = .obj fkvs → jGet fkvs "type" = some t →
        jGet fkvs "default" = none → ∃ v, generate_example_value t = .ok v) →
      ∃ exF, extractLoop fields acc = .ok exF ∧
        ∀ f ∈ fields, ∀ (fkvs : List (String × JVal)) (n : String) (t : JVal),
          f = .obj fkvs →
          jGet fkvs "name" = some (.str n) → jGet fkvs "type" = some t →
          ∀ v, exValueOf fkvs t = .ok v → jGet exF n = some v := by
  intro fields
  induction fields with
  | nil =>
      intro acc _ _ _
      exact ⟨acc, rfl, by intro f hf; cases hf⟩
  | cons f rest ih =>
      intro acc hwf hnodup hok
      obtain ⟨fkvs0, n0, t0, hf0, hname0, htype0⟩ := hwf f (List.mem_cons_self f rest)
      subst hf0
      have hnameOf : nameOf (JVal.obj fkvs0) = n0 := by simp [nameOf, hname0]
      rw [List.map_cons, hnameOf, List.nodup_cons] at hnodup
      have hwfr : ∀ g ∈ rest, FieldWF g :=
        fun g hg => hwf g (List.mem_cons_of_mem _ hg)
      have hokr : ∀ g ∈ rest, ∀ (gkvs : List (String × JVal)) (t : JVal),
          g = .obj gkvs → jGet gkvs "type" = some t →
          jGet gkvs "default" = none → ∃ v, generate_example_value t = .ok v :=
        fun g hg => hok g (List.mem_cons_of_mem _ hg)
      have hkey : ∀ (v : JVal), ∃ exF,
          extractLoop rest (dictSet acc n0 v) = .ok exF ∧
          jGet exF n0 = some v ∧
          (∀ f ∈ rest, ∀ (fkvs : List (String × JVal)) (n : String) (t : JVal),
            f = .obj fkvs →
            jGet fkvs "name" = some (.str n) → jGet fkvs "type" = some t →
            ∀ w, exValueOf fkvs t = .ok w → jGet exF n = some w) := by
        intro v
        obtain ⟨exF, hex, hlook⟩ := ih (dictSet acc n0 v) hwfr hnodup.2 hokr
        refine ⟨exF, hex, ?_, hlook⟩
        rw [extractLoop_preserves rest (dictSet acc n0 v) exF n0 hwfr hnodup.1 hex]
        exact jGet_dictSet_self acc n0 v
      cases hdef : jHas fkvs0 "default" with
      | true =>
          obtain ⟨d, hd⟩ := Option.isSome_iff_exists.mp
            ((jHas_eq_isSome fkvs0 "default") ▸ hdef)
          obtain ⟨exF, hex, hhead, htail⟩ := hkey d
          refine ⟨exF, ?_, ?_⟩
          · simp only [extractLoop, hname0, htype0, hdef, hd, if_true]
            exact hex
          · intro g hg fkvs n t hg2 hname htype v hv
            rcases List.mem_cons.mp hg with hg | hg
            · rw [hg] at hg2
              cases hg2
              have hn : n = n0 := by
                rw [hname] at hname0
                exact JVal.str.inj (Option.some.inj hname0)
              have hvd : d = v := by
                unfold exValueOf at hv
                rw [hd] at hv
                exact Except.ok.inj hv
              rw [hn, ← hvd]
              exact hhead
            · exact htail g hg fkvs n t hg2 hname htype v hv
      | false =>
          have hdnone : jGet fkvs0 "default" = none := by
            have := (jHas_eq_isSome fkvs0 "default") ▸ hdef
            exact Option.not_isSome_iff_eq_none.mp (by simp [this])
          obtain ⟨v0, hv0⟩ := hok (JVal.obj fkvs0) (List.mem_cons_self _ _)
            fkvs0 t0 rfl htype0 hdnone
          obtain ⟨exF, hex, hhead, htail⟩ := hkey v0
          refine ⟨exF, ?_, ?_⟩
          · simp only [extractLoop, hname0, htype0, hdef, Bool.false_eq_true,
              if_false, hv0]
            exact hex
          · intro g hg fkvs n t hg2 hname htype v hv
            rcases List.mem_cons.mp hg with hg | hg
            · rw [hg] at hg2
              cases hg2
              have hn : n = n0 := by
                rw [hname] at hname0
                exact JVal.str.inj (Option.some.inj hname0)
              have ht : t = t0 := by
                rw [htype] at htype0
                exact Option.some.inj htype0
              have hvv : v0 = v := by
                unfold exValueOf at hv
                rw [hdnone, ht, hv0] at hv
                exact Except.ok.inj hv
              rw [hn, ← hvv]
              exact hhead
            · exact htail g hg fkvs n t hg2 hname htype v hv

lemma pybind_ok {α β : Type} (a : α) (f : α → Except PyErr β) :
    (Except.ok a >>= f : Except PyErr β) = f a := rfl

lemma pybind_error {α β : Type} (e : PyErr) (f : α → Except PyErr β) :
    (Except.error e >>= f : Except PyErr β) = .error e := rfl

lemma avro_schema_assembled (kvs : List (String × JVal)) (fields : List JVal)
    (fp : List (String × JVal))
    (hfields : jGet kvs "fields" = some (.arr fields))
    (hproc : processFields fields [] [] = .ok (fp, requiredNames fields)) :
    avro_to_asyncapi_schema (.ok (.obj kvs)) =
      .obj [("type", .str "object"),
            ("description", (jGet kvs "doc").getD (.str "")),
            ("properties", .obj fp),
            ("required", .arr ((requiredNames fields).map (fun x => JVal.str x)))] := by
  unfold avro_to_asyncapi_schema
  simp only [avroToAsyncapiBody, pybind_ok, jGetD, hfields, Option.getD_some,
    pyIter, hproc]

lemma extract_examples_assembled (kvs : List (String × JVal))
    (fields : List JVal) (exF : List (String × JVal))
    (hfields : jGet kvs "fields" = some (.arr fields))
    (hloop : extractLoop fields [] = .ok exF) :
    extract_message_examples (.ok (.obj kvs)) = .obj exF := by
  unfold extract_message_examples
  simp only [extractExamplesBody, pybind_ok, jGetD, hfields, Option.getD_some,
    pyIter, hloop]

/-- The record refuting the original C5 claim: field `a` carries the
default `0`, field `b` is an enum whose `"symbols"` entry is the truthy
non-list `5`, so Python's `symbols[0]` raises `TypeError` and the whole
example mapping comes back empty. -/
def badSymbolsType : JVal :=
  .obj [("type", .str "enum"), ("symbols", .num 5)]

def badEnumField : JVal :=
  .obj [("name", .str "b"), ("type", badSymbolsType)]

def keptDefaultField : JVal :=
  .obj [("name", .str "a"), ("type", .str "int"), ("default", .num 0)]

def badRecord : List (String × JVal) :=
  [("fields", .arr [keptDefaultField, badEnumField])]

/-- C5 counterexample: in `badRecord`, field `a` carries the default `0`,
yet `extract_message_examples` returns the empty mapping — the sibling
enum field's `symbols[0]` subscript raises and the exception empties the
whole result — so `a`'s example is not its default verbatim, refuting the
claim as stated. -/
theorem record_field_default_counterexample :
    jGet [("name", JVal.str "a"), ("type", JVal.str "int"),
          ("default", JVal.num 0)] "default" = some (.num 0) ∧
    jGet badRecord "fields" = some (.arr [keptDefaultField, badEnumField]) ∧
    extract_message_examples (.ok (.obj badRecord)) = .obj [] ∧
    jGetO (extract_message_examples (.ok (.obj badRecord))) "a" = none := by
  have hgen : generate_example_value badSymbolsType
      = .error "TypeError: not subscriptable" := by
    unfold badSymbolsType
    rw [generate_example_value.eq_3]
    rfl
  have hloop : extractLoop [keptDefaultField, badEnumField] []
      = .error "TypeError: not subscriptable" := by
    show (match generate_example_value badSymbolsType with
          | .ok v => extractLoop [] (dictSet (dictSet [] "a" (.num 0)) "b" v)
          | .error e => (.error e : Except PyErr (List (String × JVal)))) =
        .error "TypeError: not subscriptable"
    rw [hgen]
  have hfields : jGet badRecord "fields"
      = some (.arr [keptDefaultField, badEnumField]) := rfl
  have hext : extract_message_examples (.ok (.obj badRecord)) = .obj [] := by
    unfold extract_message_examples
    simp only [extractExamplesBody, pybind_ok, pybind_error, jGetD, hfields,
      Option.getD_some, pyIter, hloop]
  exact ⟨rfl, hfields, hext, by rw [hext]; rfl⟩

/-- C5 (amended).  The required-list half of the record-field rule holds
unconditionally: a field carrying a `"default"` key (whatever its value —
0, false and "" included, since the source tests key presence, not
truthiness) is left out of the translated schema's `required` list, and a
field without one lands in it.  The example half holds provided example
generation succeeds for every no-default field of the record (generation
raises only in the enum branch, on a truthy non-list `symbols` value, and
the raise empties the whole example mapping): then a defaulted field's
example is its default verbatim — generation never being invoked for it —
and a no-default field's example is the generated per-type example. -/
theorem record_field_default_rule :
    ∀ (kvs : List (String × JVal)) (fields : List JVal),
      jGet kvs "fields" = some (.arr fields) →
      (∀ f ∈ fields, FieldWF f) →
      (fields.map nameOf).Nodup →
      ∀ f ∈ fields, ∀ (fkvs : List (String × JVal)) (n : String) (ftype : JVal),
        f = .obj fkvs →
        jGet fkvs "name" = some (.str n) →
        jGet fkvs "type" = some ftype →
        ((∀ d, jGet fkvs "default" = some d →
            ∃ req : List String, jGetO (avro_to_asyncapi_schema (.ok (.obj kvs))) "required"
                = some (.arr (List.map (fun x => JVal.str x) req)) ∧ n ∉ req) ∧
         (jGet fkvs "default" = none →
            ∃ req : List String, jGetO (avro_to_asyncapi_schema (.ok (.obj kvs))) "required"
                = some (.arr (List.map (fun x => JVal.str x) req)) ∧ n ∈ req) ∧
         ((∀ g ∈ fields, ∀ (gkvs : List (String × JVal)) (t : JVal),
             g = .obj gkvs → jGet gkvs "type" = some t →
             jGet gkvs "default" = none → ∃ v, generate_example_value t = .ok v) →
           (∀ d, jGet fkvs "default" = some d →
             jGetO (extract_message_examples (.ok (.obj kvs))) n = some d) ∧
           (∀ v, jGet fkvs "default" = none → generate_example_value ftype = .ok v →
             jGetO (extract_message_examples (.ok (.obj kvs))) n = some v))) := by
  intro kvs fields hfields hwf hnodup f hf fkvs n ftype hf2 hname htype
  obtain ⟨fp, hproc⟩ := processFields_required fields [] [] hwf
  rw [List.nil_append] at hproc
  have hschema := avro_schema_assembled kvs fields fp hfields hproc
  have hreq : jGetO (avro_to_asyncapi_schema (.ok (.obj kvs))) "required"
      = some (.arr ((requiredNames fields).map (fun x => JVal.str x))) := by
    rw [hschema]
    rfl
  have hnamef : nameOf f = n := by rw [hf2]; simp [nameOf, hname]
  refine ⟨?_, ?_, ?_⟩
  · intro d hd
    refine ⟨requiredNames fields, hreq, ?_⟩
    intro hmem
    unfold requiredNames at hmem
    obtain ⟨g, hgmem, hgname⟩ := List.mem_map.mp hmem
    have hgfields : g ∈ fields := List.mem_of_mem_filter hgmem
    have hfg : f = g := by
      apply List.inj_on_of_nodup_map hnodup hf hgfields
      rw [hnamef, hgname]
    have hnd := (List.mem_filter.mp hgmem).2
    rw [← hfg, hf2] at hnd
    simp [hasDefault, jHas_eq_isSome, hd] at hnd
  · intro hd
    refine ⟨requiredNames fields, hreq, ?_⟩
    unfold requiredNames
    apply List.mem_map.mpr
    refine ⟨f, ?_, hnamef⟩
    apply List.mem_filter.mpr
    refine ⟨hf, ?_⟩
    rw [hf2]
    simp [hasDefault, jHas_eq_isSome, hd]
  · intro hok
    obtain ⟨exF, hloop, hlook⟩ := extractLoop_lookup fields [] hwf hnodup hok
    have hex := extract_examples_assembled kvs fields exF hfields hloop
    constructor
    · intro d hd
      have hv : exValueOf fkvs ftype = .ok d := by
        unfold exValueOf
        rw [hd]
      rw [hex]
      exact hlook f hf fkvs n ftype hf2 hname htype d hv
    · intro v hd hv
      have hv2 : exValueOf fkvs ftype = .ok v := by
        unfold exValueOf
        rw [hd]
        exact hv
      rw [hex]
      exact hlook f hf fkvs n ftype hf2 hname htype v hv2

/-- The record used by the C5 witness: a field `count` with the falsy
default `0`, and a field `label` with no default. -/
def demoFieldA : JVal :=
  .obj [("name", .str "count"), ("type", .str "int"), ("default", .num 0)]

def demoFieldB : JVal :=
  .obj [("name", .str "label"), ("type", .str "string")]

def demoRecord : List (String × JVal) :=
  [("type", .str "record"), ("name", .str "R"),
   ("fields", .arr [demoFieldA, demoFieldB])]

/-- C5 witness: on the concrete record, where generation succeeds for the
only no-default field, `count` (default 0) stays out of `required` and
its example is the default `0` verbatim; `label` (no default) is required
and its example is the generated string example. -/
theorem record_field_default_rule_witness :
    (∃ req : List String, jGetO (avro_to_asyncapi_schema (.ok (.obj demoRecord))) "required"
        = some (.arr (List.map (fun x => JVal.str x) req)) ∧ "count" ∉ req) ∧
    jGetO (extract_message_examples (.ok (.obj demoRecord))) "count"
      = some (.num 0) ∧
    (∃ req : List String, jGetO (avro_to_asyncapi_schema (.ok (.obj demoRecord))) "required"
        = some (.arr (List.map (fun x => JVal.str x) req)) ∧ "label" ∈ req) ∧
    jGetO (extract_message_examples (.ok (.obj demoRecord))) "label"
      = some (.str "example-string") := by
  have hgenstr : generate_example_value (.str "string")
      = .ok (.str "example-string") := by
    rw [generate_example_value.eq_1]
    rfl
  have hwf : ∀ f ∈ [demoFieldA, demoFieldB], FieldWF f := by
    intro f hf
    rcases List.mem_cons.mp hf with hf | hf
    · subst hf
      exact ⟨[("name", .str "count"), ("type", .str "int"), ("default", .num 0)],
        "count", .str "int", rfl, rfl, rfl⟩
    · rcases List.mem_cons.mp hf with hf | hf
      · subst hf
        exact ⟨[("name", .str "label"), ("type", .str "string")],
          "label", .str "string", rfl, rfl, rfl⟩
      · cases hf
  have hnodup : ([demoFieldA, demoFieldB].map nameOf).Nodup := by
    have : [demoFieldA, demoFieldB].map nameOf = ["count", "label"] := rfl
    rw [this]
    decide
  have hok : ∀ g ∈ [demoFieldA, demoFieldB], ∀ (gkvs : List (String × JVal)) (t : JVal),
      g = .obj gkvs → jGet gkvs "type" = some t →
      jGet gkvs "default" = none → ∃ v, generate_example_value t = .ok v := by
    intro g hg gkvs t hg2 htype hdnone
    rcases List.mem_cons.mp hg with hg | hg
    · rw [hg] at hg2
      cases show JVal.obj [("name", .str "count"), ("type", .str "int"),
        ("default", .num 0)] = .obj gkvs from hg2
      cases show (some (JVal.num 0) : Option JVal) = none from hdnone
    · rcases List.mem_cons.mp hg with hg | hg
      · rw [hg] at hg2
        cases show JVal.obj [("name", .str "label"), ("type", .str "string")]
          = .obj gkvs from hg2
        cases show (some (JVal.str "string") : Option JVal) = some t from htype
        exact ⟨.str "example-string", hgenstr⟩
      · cases hg
  have h := record_field_default_rule demoRecord [demoFieldA, demoFieldB]
    rfl hwf hnodup
  have hA := h demoFieldA (List.mem_cons_self _ _)
    [("name", .str "count"), ("type", .str "int"), ("default", .num 0)]
    "count" (.str "int") rfl rfl rfl
  have hB := h demoFieldB (List.mem_cons_of_mem _ (List.mem_cons_self _ _))
    [("name", .str "label"), ("type", .str "string")]
    "label" (.str "string") rfl rfl rfl
  exact ⟨hA.1 (.num 0) rfl, (hA.2.2 hok).1 (.num 0) rfl,
    hB.2.1 rfl, (hB.2.2 hok).2 (.str "example-string") rfl hgenstr⟩

end DemoAsync
